import Mathlib

/-!
Shallow embedding of the plugin-repository update pipeline from
`bin/update.py` and `build.py`: semantic-version parsing and comparison
(`semver.VersionInfo`), latest-release selection (`_GitHubRelease.get`),
distribution-archive descriptor extraction (`_Plugin._meta` /
`PluginContext._metadata`), registry construction and persistence
(`_RepoConfig`), the orchestrating `main`, and `_IndexFile.repo_url`.
Strings are modelled as `String` / `List Char`; Python string operations
(`split`, `join`, `lstrip`, `startswith`) are translated as explicit
Lean functions below.
-/

set_option maxRecDepth 10000

namespace PluginRepo

/-- Python `s.split(sep)` for a single-character separator, on `List Char`:
always returns at least one (possibly empty) part, and one extra part per
separator occurrence. -/
def pySplitL (sep : Char) : List Char → List (List Char)
  | [] => [[]]
  | c :: cs =>
    match pySplitL sep cs with
    | [] => [[]]
    | r :: rs => if c = sep then [] :: r :: rs else (c :: r) :: rs

/-- Python `s.split(sep)` on `String`. -/
def pySplit (sep : Char) (s : String) : List String :=
  (pySplitL sep s.data).map fun l => ⟨l⟩

/-- Python `sep.join(parts)` for a single-character separator. -/
def pyJoin (sep : Char) : List String → String
  | [] => ""
  | [x] => x
  | x :: y :: rest => x ++ ⟨[sep]⟩ ++ pyJoin sep (y :: rest)

/-- Split a character list at the first occurrence of `sep`: returns the
part before it and, when `sep` occurs, the part after it. -/
def splitFirst (sep : Char) : List Char → List Char × Option (List Char)
  | [] => ([], none)
  | c :: cs =>
    if c = sep then ([], some cs)
    else
      let r := splitFirst sep cs
      (c :: r.1, r.2)

/-- Python `s.startswith(pre)`: `pre` is a prefix of `s`. -/
def startsWithL : List Char → List Char → Bool
  | _, [] => true
  | [], _ :: _ => false
  | a :: as, b :: bs => a == b && startsWithL as bs

/-- Python `tag.lstrip("v")`: drop every leading `v` character
(`_GitHubRelease._semver`). -/
def lstripV (l : List Char) : List Char := l.dropWhile (· = 'v')

/-- One dot-separated pre-release identifier of a semantic version: purely
numeric identifiers are compared numerically, others as ASCII strings
(python-semver converts all-digit identifiers to `int`). -/
inductive PreId where
  | num (n : Nat)
  | str (s : List Char)
deriving DecidableEq, Repr

/-- `semver.VersionInfo`: major/minor/patch plus optional pre-release and
build identifier lists (`[]` means the component is absent). -/
structure VersionInfo where
  major : Nat
  minor : Nat
  patch : Nat
  prerelease : List PreId
  build : List (List Char)
deriving DecidableEq, Repr

/-- Decimal value of a digit character. -/
def digitVal (c : Char) : Nat := c.toNat - 48

/-- Decimal number denoted by a digit list. -/
def natOfDigits (l : List Char) : Nat := l.foldl (fun n c => n * 10 + digitVal c) 0

/-- A valid numeric field of a semantic version: `0`, or a nonzero digit
followed by digits (no leading zeros), per the semver grammar used by
`VersionInfo.parse`. -/
def validNum : List Char → Bool
  | [] => false
  | c :: cs => c.isDigit && cs.all Char.isDigit && (c != '0' || cs.isEmpty)

/-- Characters allowed in pre-release and build identifiers: `[0-9A-Za-z-]`. -/
def allowedChar (c : Char) : Bool := c.isDigit || c.isAlpha || c == '-'

/-- A valid pre-release identifier: nonempty, allowed characters only, and
no leading zeros when purely numeric. -/
def validPreId (s : List Char) : Bool :=
  !s.isEmpty && s.all allowedChar && (!s.all Char.isDigit || validNum s)

/-- A valid build identifier: nonempty, allowed characters only. -/
def validBuildId (s : List Char) : Bool := !s.isEmpty && s.all allowedChar

/-- Interpretation of a pre-release identifier: all-digit identifiers
become numbers, the rest stay strings. -/
def preIdOf (s : List Char) : PreId :=
  if s.all Char.isDigit then .num (natOfDigits s) else .str s

/-- The `major.minor.patch` core of a version string: exactly three
dot-separated numeric fields. -/
def parseMMP (s : List Char) : Option (Nat × Nat × Nat) :=
  match pySplitL '.' s with
  | [a, b, c] =>
    if validNum a && validNum b && validNum c then
      some (natOfDigits a, natOfDigits b, natOfDigits c)
    else none
  | _ => none

/-- `semver.VersionInfo.parse`: `major.minor.patch`, then an optional
pre-release introduced by the first `-`, then an optional build introduced
by the first `+`; `none` when the string is not a valid semantic version
(the Python call raises `ValueError`). -/
def parseVersion (s : List Char) : Option VersionInfo :=
  let pb := splitFirst '+' s
  let cp := splitFirst '-' pb.1
  match parseMMP cp.1 with
  | none => none
  | some mmp =>
    let pre : Option (List PreId) :=
      match cp.2 with
      | none => some []
      | some p =>
        let parts := pySplitL '.' p
        if parts.all validPreId then some (parts.map preIdOf) else none
    let bld : Option (List (List Char)) :=
      match pb.2 with
      | none => some []
      | some b =>
        let parts := pySplitL '.' b
        if parts.all validBuildId then some parts else none
    match pre, bld with
    | some p, some b => some ⟨mmp.1, mmp.2.1, mmp.2.2, p, b⟩
    | _, _ => none

/-- `_GitHubRelease._semver`: parse the tag after stripping every leading
`v` character. -/
def semverOf (tag : String) : Option VersionInfo := parseVersion (lstripV tag.data)

/-- Rendering of one pre-release identifier, as in `str(VersionInfo)`. -/
def renderPreId : PreId → String
  | .num n => toString n
  | .str s => ⟨s⟩

/-- `str(VersionInfo)`: `major.minor.patch`, `-prerelease` when present,
`+build` when present. -/
def renderVersion (v : VersionInfo) : String :=
  toString v.major ++ "." ++ toString v.minor ++ "." ++ toString v.patch
    ++ (if v.prerelease.isEmpty then "" else "-" ++ pyJoin '.' (v.prerelease.map renderPreId))
    ++ (if v.build.isEmpty then "" else "+" ++ pyJoin '.' (v.build.map fun s => (⟨s⟩ : String)))

/-- `VersionInfo.finalize_version()`: keep major/minor/patch, drop
pre-release and build. -/
def finalizeVersion (v : VersionInfo) : VersionInfo := ⟨v.major, v.minor, v.patch, [], []⟩

/-- Lexicographic comparison of lists by an element comparator; a strict
prefix compares below the longer list (Python sequence comparison, also
how python-semver compares dot-separated pre-release identifier lists). -/
def listCmp (f : α → α → Ordering) : List α → List α → Ordering
  | [], [] => .eq
  | [], _ :: _ => .lt
  | _ :: _, [] => .gt
  | a :: as, b :: bs => (f a b).then (listCmp f as bs)

instance listCmpOriented (f : α → α → Ordering) [Batteries.OrientedCmp f] :
    Batteries.OrientedCmp (listCmp f) where
  symm a b := by
    induction a generalizing b with
    | nil => cases b <;> rfl
    | cons x xs ih =>
      cases b with
      | nil => rfl
      | cons y ys =>
        simp only [listCmp, Ordering.swap_then]
        rw [@Batteries.OrientedCmp.symm _ f _ x y, ih ys]

theorem listCmp_le_trans (f : α → α → Ordering) [Batteries.TransCmp f] :
    ∀ a b c : List α, listCmp f a b ≠ .gt → listCmp f b c ≠ .gt → listCmp f a c ≠ .gt := by
  intro a
  induction a with
  | nil => intro b c _ _; cases c <;> simp [listCmp]
  | cons x xs ih =>
    intro b c h1 h2
    cases b with
    | nil => exact absurd rfl h1
    | cons y ys =>
      cases c with
      | nil => exact absurd rfl h2
      | cons z zs =>
        simp only [listCmp, ne_eq, Ordering.then_eq_gt, not_or, not_and] at h1 h2 ⊢
        refine ⟨Batteries.TransCmp.le_trans h1.1 h2.1, fun e1 => ?_⟩
        match ab : f x y with
        | .gt => exact absurd ab h1.1
        | .eq => exact ih ys zs (h1.2 ab) (h2.2 (Batteries.TransCmp.cmp_congr_left ab ▸ e1))
        | .lt =>
          exact absurd ((Batteries.OrientedCmp.cmp_eq_gt).2
            (Batteries.TransCmp.cmp_congr_left e1 ▸ ab)) h2.1

instance listCmpTrans (f : α → α → Ordering) [Batteries.TransCmp f] :
    Batteries.TransCmp (listCmp f) where
  le_trans h1 h2 := listCmp_le_trans f _ _ _ h1 h2

/-- ASCII (code-point) comparison of characters, as Python string
comparison does characterwise. -/
def charCmp : Char → Char → Ordering := compareOn Char.toNat

instance : Batteries.TransCmp charCmp :=
  inferInstanceAs (Batteries.TransCmp (compareOn Char.toNat))

/-- python-semver comparison of single pre-release identifiers: numbers
compare numerically, a number is below any string, strings compare as
ASCII strings. -/
def cmpPreId : PreId → PreId → Ordering
  | .num a, .num b => compare a b
  | .num _, .str _ => .lt
  | .str _, .num _ => .gt
  | .str a, .str b => listCmp charCmp a b

instance : Batteries.OrientedCmp cmpPreId where
  symm a b := by
    cases a <;> cases b
    · exact @Batteries.OrientedCmp.symm _ (compare : Nat → Nat → Ordering) _ _ _
    · rfl
    · rfl
    · exact @Batteries.OrientedCmp.symm _ (listCmp charCmp) _ _ _

instance : Batteries.TransCmp cmpPreId where
  le_trans {a b c} h1 h2 := by
    cases a <;> cases b <;> cases c
    · exact @Batteries.TransCmp.le_trans _ (compare : Nat → Nat → Ordering) _ _ _ _ h1 h2
    · simp [cmpPreId]
    · exact absurd rfl h2
    · simp [cmpPreId]
    · exact absurd rfl h1
    · exact absurd rfl h1
    · exact absurd rfl h2
    · exact @Batteries.TransCmp.le_trans _ (listCmp charCmp) _ _ _ _ h1 h2

/-- python-semver pre-release comparison at the version level: a version
with no pre-release (`[]`) compares above one with a pre-release, and two
pre-release lists compare by `listCmp cmpPreId`. -/
def cmpPre : List PreId → List PreId → Ordering
  | [], [] => .eq
  | [], _ :: _ => .gt
  | _ :: _, [] => .lt
  | a :: as, b :: bs => listCmp cmpPreId (a :: as) (b :: bs)

instance : Batteries.OrientedCmp cmpPre where
  symm a b := by
    cases a <;> cases b
    · rfl
    · rfl
    · rfl
    · exact @Batteries.OrientedCmp.symm _ (listCmp cmpPreId) _ _ _

instance : Batteries.TransCmp cmpPre where
  le_trans {a b c} h1 h2 := by
    cases a <;> cases b <;> cases c
    · simp [cmpPre]
    · exact absurd rfl h2
    · exact absurd rfl h1
    · exact absurd rfl h1
    · simp [cmpPre]
    · exact absurd rfl h2
    · simp [cmpPre]
    · exact @Batteries.TransCmp.le_trans _ (listCmp cmpPreId) _ _ _ _ h1 h2

/-- `semver.VersionInfo.compare`: major, minor, patch numerically, then
the pre-release rule of `cmpPre`; build metadata is ignored. -/
def compareVer (a b : VersionInfo) : Ordering :=
  (compare a.major b.major).then ((compare a.minor b.minor).then
    ((compare a.patch b.patch).then (cmpPre a.prerelease b.prerelease)))

theorem compareVer_eq_lex : compareVer =
    compareLex (compareOn VersionInfo.major) (compareLex (compareOn VersionInfo.minor)
      (compareLex (compareOn VersionInfo.patch) (Ordering.byKey VersionInfo.prerelease cmpPre))) :=
  rfl

instance : Batteries.TransCmp compareVer := by
  rw [compareVer_eq_lex]; infer_instance

/-- `_semver` lifted into `Except`, as evaluated inside
`max(releases.keys(), key=cls._semver)`: an unparseable tag raises
`ValueError`. -/
def semverE (t : String) : Except Unit VersionInfo :=
  match semverOf t with
  | some v => .ok v
  | none => .error ()

/-- The iteration inside Python `max(tags, key=_semver)`: keep the current
maximum, replacing it only when a later tag's version compares strictly
greater (so ties keep the earliest tag); an unparseable tag aborts. -/
def pyMaxAux : String × VersionInfo → List String → Except Unit (String × VersionInfo)
  | acc, [] => .ok acc
  | acc, t :: ts =>
    match semverE t with
    | .error e => .error e
    | .ok vt => pyMaxAux (if compareVer vt acc.2 = .gt then (t, vt) else acc) ts

/-- `tag = str(max(releases.keys(), key=cls._semver))` from
`_GitHubRelease.get`: the tag whose parsed version is greatest; errors on
an empty tag list (`ValueError` from `max`) or an unparseable tag. -/
def latestTag (tags : List String) : Except Unit String :=
  match tags with
  | [] => .error ()
  | t :: ts =>
    match semverE t with
    | .error e => .error e
    | .ok vt => (pyMaxAux (t, vt) ts).map Prod.fst

theorem pyMaxAux_spec (ts : List String) :
    ∀ acc : String × VersionInfo, semverOf acc.1 = some acc.2 →
      (∀ t ∈ ts, (semverOf t).isSome = true) →
      ∃ r : String × VersionInfo, pyMaxAux acc ts = .ok r ∧
        (r = acc ∨ r.1 ∈ ts) ∧ semverOf r.1 = some r.2 ∧
        compareVer acc.2 r.2 ≠ .gt ∧
        ∀ t ∈ ts, ∀ vt, semverOf t = some vt → compareVer vt r.2 ≠ .gt := by
  induction ts with
  | nil =>
    intro acc hacc _
    refine ⟨acc, rfl, Or.inl rfl, hacc, ?_, by simp⟩
    rw [@Batteries.OrientedCmp.cmp_refl _ compareVer _ _]
    simp
  | cons t ts ih =>
    intro acc hacc hall
    have ht : (semverOf t).isSome = true := hall t (by simp)
    obtain ⟨vt, hvt⟩ : ∃ v, semverOf t = some v := by
      cases h : semverOf t
      · rw [h] at ht; simp at ht
      · exact ⟨_, rfl⟩
    have hstep : pyMaxAux acc (t :: ts) =
        pyMaxAux (if compareVer vt acc.2 = .gt then (t, vt) else acc) ts := by
      simp [pyMaxAux, semverE, hvt]
    set acc' := if compareVer vt acc.2 = .gt then (t, vt) else acc with hdef
    have hacc' : semverOf acc'.1 = some acc'.2 := by
      by_cases hc : compareVer vt acc.2 = .gt
      · simp [hdef, hc, hvt]
      · simp [hdef, hc, hacc]
    obtain ⟨r, hr, hmem, hrv, hle, hmax⟩ :=
      ih acc' hacc' (fun u hu => hall u (List.mem_cons_of_mem _ hu))
    refine ⟨r, hstep.trans hr, ?_, hrv, ?_, ?_⟩
    · rcases hmem with h | h
      · by_cases hc : compareVer vt acc.2 = .gt
        · rw [hdef] at h; simp [hc] at h
          exact Or.inr (h ▸ List.mem_cons_self t ts)
        · rw [hdef] at h; simp [hc] at h
          exact Or.inl h
      · exact Or.inr (List.mem_cons_of_mem _ h)
    · by_cases hc : compareVer vt acc.2 = .gt
      · have hlt : compareVer acc.2 vt = .lt := Batteries.OrientedCmp.cmp_eq_gt.mp hc
        have hle' : compareVer vt r.2 ≠ .gt := by
          have : acc'.2 = vt := by simp [hdef, hc]
          rw [this] at hle; exact hle
        have := Batteries.TransCmp.lt_le_trans hlt hle'
        exact fun hgt => nomatch this.symm.trans hgt
      · have : acc' = acc := by simp [hdef, hc]
        rw [this] at hle; exact hle
    · intro u hu vu hvu
      rcases List.mem_cons.mp hu with h | h
      · subst h
        have hvv : vu = vt := by rw [hvu] at hvt; exact Option.some_inj.mp hvt
        subst hvv
        by_cases hc : compareVer vu acc.2 = .gt
        · have : acc'.2 = vu := by simp [hdef, hc]
          rw [this] at hle; exact hle
        · have : acc' = acc := by simp [hdef, hc]
          rw [this] at hle
          exact Batteries.TransCmp.le_trans hc hle
      · exact hmax u h vu hvu

/-- An `xml.etree.ElementTree` element: tag, attributes in document order,
text content (`None` when the element carries no text), children in
document order. -/
inductive Element where
  | mk (tag : String) (attrib : List (String × String)) (text : Option String)
      (children : List Element)

/-- Tag of an element. -/
def Element.tag : Element → String
  | .mk t _ _ _ => t

/-- Attribute list of an element. -/
def Element.attrib : Element → List (String × String)
  | .mk _ a _ _ => a

/-- Text content of an element (`None` for an empty element). -/
def Element.text : Element → Option String
  | .mk _ _ x _ => x

/-- Children of an element. -/
def Element.children : Element → List Element
  | .mk _ _ _ c => c

/-- `ElementTree.Element.find`: the first direct child with the given tag,
`None` when there is none. -/
def Element.find (e : Element) (t : String) : Option Element :=
  e.children.find? fun c => c.tag == t

/-- The metadata dictionary assembled by `_Plugin._meta`: the text of the
four required scalar elements (possibly `None`) and the attribute mapping
of `idea-version`. -/
structure PluginMeta where
  id : Option String
  name : Option String
  version : Option String
  description : Option String
  ideaVersion : List (String × String)
deriving DecidableEq, Repr

/-- Failure modes of `_Plugin._meta`, one per Python exception:
`StopIteration` from `next` on an empty archive, `AssertionError` when the
first entry is not a directory, `ValueError` when no `lib/` item matches,
a parse failure on the nested archive or document, and `AttributeError`
(`None.text` / `None.attrib`) when a descriptor element is absent. -/
inductive MetaErr where
  | emptyArchive
  | rootNotDir
  | libraryNotFound
  | descriptorNotFound
  | missingElem (tag : String)
deriving DecidableEq, Repr

/-- The dictionary construction ending `_Plugin._meta`: the text of `id`,
`name`, `version`, `description` in that order, then the attribute set of
`idea-version`; evaluation stops at the first absent element, where
`root.find(key).text` / `.attrib` raises `AttributeError`. -/
def metaOfRoot (root : Element) : Except MetaErr PluginMeta :=
  match root.find "id" with
  | none => .error (.missingElem "id")
  | some i =>
    match root.find "name" with
    | none => .error (.missingElem "name")
    | some n =>
      match root.find "version" with
      | none => .error (.missingElem "version")
      | some v =>
        match root.find "description" with
        | none => .error (.missingElem "description")
        | some d =>
          match root.find "idea-version" with
          | none => .error (.missingElem "idea-version")
          | some iv => .ok ⟨i.text, n.text, v.text, d.text, iv.attrib⟩

/-- An entry of the nested `lib/` directory as `_Plugin._meta` consumes
it: its file name and the parse of `META-INF/plugin.xml` inside it
(`none` when that entry is absent or not a parseable document). -/
structure LibItem where
  name : String
  pluginXml : Option Element

/-- A top-level entry of the outer distribution archive: its name, whether
it is a directory, and the entries of its `lib/` subdirectory. -/
structure TopEntry where
  name : String
  isDir : Bool
  lib : List LibItem

/-- The outer distribution archive, as the sequence of top-level entries
`ZipPath(...).iterdir()` yields. -/
structure Jar where
  entries : List TopEntry

/-- `_Plugin._meta`: take the first top-level entry
(`next(jar.root.iterdir())`), assert it is a directory, scan its `lib/`
directory for the first item whose name starts with the directory's name,
parse `META-INF/plugin.xml` inside that item, and read the descriptor
fields. -/
def jarMeta (jar : Jar) : Except MetaErr PluginMeta :=
  match jar.entries with
  | [] => .error .emptyArchive
  | rootDir :: _ =>
    if rootDir.isDir then
      match rootDir.lib.find? (fun it => startsWithL it.name.data rootDir.name.data) with
      | none => .error .libraryNotFound
      | some it =>
        match it.pluginXml with
        | none => .error .descriptorNotFound
        | some root => metaOfRoot root
    else .error .rootNotDir

/-- A `_Plugin` value as `_RepoConfig` and `_IndexFile` consume it: the
resolved download URL and the extracted metadata. -/
structure Plugin where
  url : String
  meta : PluginMeta
deriving DecidableEq, Repr

/-- One `<plugin>` child of the `<plugins>` registry root as
`_RepoConfig._add` builds it: `id`, `version` and `url` attributes plus an
`idea-version` child carrying the descriptor's compatibility attributes.
`id` and `version` keep the (possibly `None`) extracted values. -/
structure PluginElem where
  id : Option String
  version : Option String
  url : String
  ideaVersion : List (String × String)
deriving DecidableEq, Repr

/-- The element `_RepoConfig._add` builds from one plugin. -/
def pluginElemOf (p : Plugin) : PluginElem :=
  ⟨p.meta.id, p.meta.version, p.url, p.meta.ideaVersion⟩

/-- `_RepoConfig._add`: unconditionally append one `<plugin>` element to
the root's children. -/
def addPlugin (cfg : List PluginElem) (p : Plugin) : List PluginElem :=
  cfg ++ [pluginElemOf p]

/-- `_RepoConfig.__init__`: start from an empty `<plugins>` root and
`_add` every plugin in the given order. -/
def repoConfigOf (ps : List Plugin) : List PluginElem := ps.foldl addPlugin []

/-- One rendered XML attribute. `ElementTree` writes `key="value"`; a
`None` value would make `ElementTree.write` raise, rendered here as a
distinct marker (never reached by well-formed metadata). -/
def attrStr (k : String) (v : Option String) : String :=
  match v with
  | some s => " " ++ k ++ "=\"" ++ s ++ "\""
  | none => " " ++ k ++ "=!None"

/-- Rendered attribute list, in insertion order. -/
def attrsStr : List (String × String) → String
  | [] => ""
  | (k, v) :: rest => attrStr k (some v) ++ attrsStr rest

/-- Serialization of one `<plugin>` element. -/
def serializePluginElem (p : PluginElem) : String :=
  "<plugin" ++ attrStr "id" p.id ++ attrStr "version" p.version
    ++ attrStr "url" (some p.url)
    ++ "><idea-version" ++ attrsStr p.ideaVersion ++ " /></plugin>"

/-- Concatenation of rendered fragments. -/
def concatAll : List String → String
  | [] => ""
  | s :: rest => s ++ concatAll rest

/-- The registry document `_RepoConfig.write` produces: declaration header
plus the `<plugins>` tree serialized in order (`etree.indent` whitespace
is deterministic and omitted from the model). -/
def serializeRepo (cfg : List PluginElem) : String :=
  "<?xml version=\"1.0\" encoding=\"utf-8\"?><plugins>"
    ++ concatAll (cfg.map serializePluginElem) ++ "</plugins>"

/-- File-system effects of the pipeline, in program order. -/
inductive FsOp where
  | mkdirParents (dir : String)
  | writeFile (path : String) (content : String)
  | rename (src : String) (dst : String)
deriving DecidableEq, Repr

/-- `pathlib.Path.parent` for POSIX-style path strings, modelled at the
standard-library boundary. -/
def parentPath (p : String) : String :=
  match (pySplit '/' p).dropLast with
  | [] => "."
  | segs => pyJoin '/' segs

/-- `_RepoConfig.write`: `path.parent.mkdir(parents=True, exist_ok=True)`,
then `self._xml.write(path, ...)` serializing the tree directly to the
target path. No temporary file is created and no rename happens. -/
def writeOps (path : String) (cfg : List PluginElem) : List FsOp :=
  [.mkdirParents (parentPath path), .writeFile path (serializeRepo cfg)]

/-- A per-plugin resolution failure: the exception one `_Plugin.get` task
raises. -/
inductive TaskErr where
  | providerUnavailable
  | badTag
  | releaseNotFound
  | assetNotFound (name : String)
  | downloadFailed
  | metaFailed (e : MetaErr)
deriving DecidableEq, Repr

/-- `asyncio.gather` with the default `return_exceptions=False`, as `main`
awaits it: the joint result fails with the first exception (completion
order modelled as argument order) and the remaining outcomes are
discarded. -/
def gatherE : List (Except TaskErr Plugin) → Except TaskErr (List Plugin)
  | [] => .ok []
  | .error e :: _ => .error e
  | .ok p :: rest => (gatherE rest).map (p :: ·)

/-- The first failing outcome among the task results, when any. -/
def firstError (outcomes : List (Except TaskErr Plugin)) : Option TaskErr :=
  outcomes.findSome? fun o =>
    match o with
    | .error e => some e
    | .ok _ => none

/-- Modelled from the spec: the rendered `index.html` content is treated
as a pure function of the plugin records — the Jinja template machinery
and the `_IndexFile` context are external collaborators specified only at
their boundary. -/
def renderIndex (ps : List Plugin) : String := concatAll (ps.map Plugin.url)

/-- `main` from `bin/update.py`, given the outcomes of the per-plugin
`_Plugin.get` tasks: await `gather`; only when every task succeeded,
build `_RepoConfig` from the plugins in configured order and write it,
then write the rendered index page. Returns the file-system trace paired
with the error, if any, that aborted the run. -/
def mainRun (repoConfigPath : String) (outcomes : List (Except TaskErr Plugin)) :
    List FsOp × Option TaskErr :=
  match gatherE outcomes with
  | .error e => ([], some e)
  | .ok plugins =>
    (writeOps repoConfigPath (repoConfigOf plugins)
      ++ [.mkdirParents "dist", .writeFile "dist/index.html" (renderIndex plugins)], none)

/-- The result of `urllib.parse.urlsplit`: scheme, network location, path,
query, fragment. `urlsplit` and `urlunsplit` are standard-library
collaborators; `repo_url` manipulates only the path component. -/
structure SplitUrl where
  scheme : String
  netloc : String
  path : String
  query : String
  fragment : String
deriving DecidableEq, Repr

/-- Python `list.index(x)` on a string list: index of the first
occurrence, `none` when absent (`ValueError`). -/
def pyIndex (x : String) : List String → Option Nat
  | [] => none
  | a :: as => if a = x then some 0 else (pyIndex x as).map (· + 1)

/-- `_IndexFile.repo_url`: split the URL path on `/`, truncate it at the
first `releases` segment (`list.index` raises `ValueError` when absent),
and reassemble the URL with the truncated path. -/
def repoUrl (u : SplitUrl) : Except Unit SplitUrl :=
  let segs := pySplit '/' u.path
  match pyIndex "releases" segs with
  | none => .error ()
  | some i => .ok { u with path := pyJoin '/' (segs.take i) }

/-- `name = f"..."` in `_Plugin.get` (`bin/update.py`): the asset name is
built from the artifact and `str(release.version)`. -/
def updateAssetName (artifact : String) (v : VersionInfo) : String :=
  artifact ++ "-" ++ renderVersion v ++ ".zip"

/-- The asset name `PluginContext._download` (`build.py`) builds: it uses
`release.version.finalize_version()` instead of the parsed version. -/
def buildAssetName (artifact : String) (v : VersionInfo) : String :=
  artifact ++ "-" ++ renderVersion (finalizeVersion v) ++ ".zip"

/-- `release.assets[name]["browser_download_url"]`: dictionary lookup of
an asset by exact name; an absent key raises `KeyError`. Assets are the
`(name, browser_download_url)` pairs of the release. -/
def lookupAsset (assets : List (String × String)) (nm : String) : Except Unit String :=
  match assets.find? (fun a => a.1 == nm) with
  | some a => .ok a.2
  | none => .error ()

/-- The atomic-persistence contract the spec asserts for `write`,
formalized from the spec's words for refutation against the code's trace:
no operation writes the target path directly, and some distinct temporary
file is written and then renamed onto the target. -/
def SpecAtomicWrite (ops : List FsOp) (target : String) : Prop :=
  (∀ c, FsOp.writeFile target c ∉ ops) ∧
  ∃ tmp c, tmp ≠ target ∧ FsOp.writeFile tmp c ∈ ops ∧ FsOp.rename tmp target ∈ ops

theorem foldl_addPlugin (ps : List Plugin) :
    ∀ cfg, ps.foldl addPlugin cfg = cfg ++ ps.map pluginElemOf := by
  induction ps with
  | nil => intro cfg; simp
  | cons p ps ih => intro cfg; simp [List.foldl_cons, addPlugin, ih (cfg ++ [pluginElemOf p])]

theorem gatherE_first_error :
    ∀ (l : List (Except TaskErr Plugin)) (e : TaskErr),
      firstError l = some e → gatherE l = .error e := by
  intro l
  induction l with
  | nil => intro e h; simp [firstError] at h
  | cons o rest ih =>
    intro e h
    cases o with
    | error e' =>
      have he : e' = e := by simpa [firstError, List.findSome?_cons] using h
      rw [← he]
      rfl
    | ok p =>
      have h' : firstError rest = some e := by
        simpa [firstError, List.findSome?_cons] using h
      simp [gatherE, ih e h', Except.map]

theorem pyIndex_eq_none (x : String) : ∀ l : List String, pyIndex x l = none ↔ x ∉ l := by
  intro l
  induction l with
  | nil => simp [pyIndex]
  | cons a as ih =>
    by_cases ha : a = x
    · simp [pyIndex, ha]
    · simp only [pyIndex, if_neg ha, Option.map_eq_none', ih, List.mem_cons]
      constructor
      · intro h hc
        rcases hc with hc | hc
        · exact ha hc.symm
        · exact h hc
      · intro h hc
        exact h (Or.inr hc)

theorem pyIndex_take (x : String) :
    ∀ (l : List String) (i : Nat), pyIndex x l = some i →
      l.take i = l.takeWhile (fun s => s != x) := by
  intro l
  induction l with
  | nil => intro i h; simp [pyIndex] at h
  | cons a as ih =>
    intro i h
    by_cases ha : a = x
    · simp only [pyIndex, if_pos ha] at h
      rw [← Option.some_inj.mp h]
      simp [List.takeWhile_cons, ha]
    · simp only [pyIndex, if_neg ha, Option.map_eq_some'] at h
      obtain ⟨j, hj, rfl⟩ := h
      have hb : (a != x) = true := by simp [ha]
      simp [List.take_succ_cons, List.takeWhile_cons, hb, ih j hj]

theorem metaOfRoot_ok (root : Element) (i n v d iv : Element)
    (h1 : root.find "id" = some i) (h2 : root.find "name" = some n)
    (h3 : root.find "version" = some v) (h4 : root.find "description" = some d)
    (h5 : root.find "idea-version" = some iv) :
    metaOfRoot root = .ok ⟨i.text, n.text, v.text, d.text, iv.attrib⟩ := by
  simp [metaOfRoot, h1, h2, h3, h4, h5]

theorem metaOfRoot_error_absent (root : Element) (err : MetaErr)
    (h : metaOfRoot root = .error err) :
    ∃ t, err = .missingElem t ∧ root.find t = none := by
  cases h1 : root.find "id" with
  | none =>
    refine ⟨"id", ?_, h1⟩
    simp [metaOfRoot, h1] at h
    exact h.symm
  | some i =>
    cases h2 : root.find "name" with
    | none =>
      refine ⟨"name", ?_, h2⟩
      simp [metaOfRoot, h1, h2] at h
      exact h.symm
    | some n =>
      cases h3 : root.find "version" with
      | none =>
        refine ⟨"version", ?_, h3⟩
        simp [metaOfRoot, h1, h2, h3] at h
        exact h.symm
      | some v =>
        cases h4 : root.find "description" with
        | none =>
          refine ⟨"description", ?_, h4⟩
          simp [metaOfRoot, h1, h2, h3, h4] at h
          exact h.symm
        | some d =>
          cases h5 : root.find "idea-version" with
          | none =>
            refine ⟨"idea-version", ?_, h5⟩
            simp [metaOfRoot, h1, h2, h3, h4, h5] at h
            exact h.symm
          | some iv =>
            simp [metaOfRoot, h1, h2, h3, h4, h5] at h

/-- A concrete resolved plugin used by the concrete-input theorems. -/
def p0 : Plugin :=
  ⟨"https://github.com/mdklatt/idea-netcdf-plugin/releases/download/v1.0.2/netcdf-1.0.2.zip",
   ⟨some "mdklatt.idea-netcdf-plugin", some "NetCDF", some "1.0.2",
    some "NetCDF file viewer", [("since-build", "221")]⟩⟩

/-- A concrete well-formed descriptor document. -/
def descriptorDoc : Element :=
  .mk "idea-plugin" [] none
    [.mk "id" [] (some "mdklatt.idea-netcdf-plugin") [],
     .mk "name" [] (some "NetCDF") [],
     .mk "version" [] (some "1.0.2") [],
     .mk "description" [] (some "NetCDF file viewer") [],
     .mk "idea-version" [("since-build", "221")] none []]

/-- The metadata extracted from `descriptorDoc`. -/
def metaOk : PluginMeta :=
  ⟨some "mdklatt.idea-netcdf-plugin", some "NetCDF", some "1.0.2",
   some "NetCDF file viewer", [("since-build", "221")]⟩

/-- A well-formed top-level directory entry containing the plugin
library. -/
def goodTop : TopEntry :=
  ⟨"netcdf-1.0.2", true, [⟨"netcdf-1.0.2.jar", some descriptorDoc⟩]⟩

/-- A descriptor document with the four scalar elements but no
`idea-version` element. -/
def docNoIdeaVersion : Element :=
  .mk "idea-plugin" [] none
    [.mk "id" [] (some "mdklatt.idea-netcdf-plugin") [],
     .mk "name" [] (some "NetCDF") [],
     .mk "version" [] (some "1.0.2") [],
     .mk "description" [] (some "NetCDF file viewer") []]

/-- A descriptor document whose `id` element is present but empty. -/
def docEmptyId : Element :=
  .mk "idea-plugin" [] none
    [.mk "id" [] none [],
     .mk "name" [] (some "NetCDF") [],
     .mk "version" [] (some "1.0.2") [],
     .mk "description" [] (some "NetCDF file viewer") [],
     .mk "idea-version" [("since-build", "221")] none []]

/-- A concrete pre-release version, 2.0.0-beta. -/
def betaVer : VersionInfo := ⟨2, 0, 0, [.str ['b', 'e', 't', 'a']], []⟩

/-- C1 counterexample: the code has no upsert — `_RepoConfig._add`
appends unconditionally, so adding the same `PluginRecord` twice yields a
serialization different from adding it once and leaves two registry
entries sharing one id. -/
theorem upsert_idempotent_counterexample :
    serializeRepo (addPlugin (addPlugin [] p0) p0) ≠ serializeRepo (addPlugin [] p0) ∧
    (addPlugin (addPlugin [] p0) p0).map PluginElem.id
      = [some "mdklatt.idea-netcdf-plugin", some "mdklatt.idea-netcdf-plugin"] :=
  ⟨by decide, rfl⟩

/-- C1 (amended): the registry is rebuilt from the configured plugin list
on each run: `_add` appends exactly one `<plugin>` element per plugin, in
list order, so re-adding an existing id duplicates it instead of
overwriting in place. -/
theorem repoConfig_appends_per_plugin :
    ∀ ps : List Plugin, repoConfigOf ps = ps.map pluginElemOf ∧
      (repoConfigOf ps).map PluginElem.id = ps.map fun p => p.meta.id := by
  intro ps
  have h : repoConfigOf ps = ps.map pluginElemOf := by
    simpa using foldl_addPlugin ps []
  refine ⟨h, ?_⟩
  rw [h, List.map_map]
  rfl

/-- C2 counterexample: registry persistence is not atomic — the write
trace writes the target path directly and contains no temporary file and
no rename onto the target. -/
theorem atomic_write_counterexample :
    ¬ SpecAtomicWrite (writeOps "build/updatePlugins.xml" (repoConfigOf [p0]))
      "build/updatePlugins.xml" := by
  intro h
  exact h.1 (serializeRepo (repoConfigOf [p0])) (by simp [writeOps])

/-- C2 (amended): `_RepoConfig.write` makes the parent directory and then
serializes the tree directly to the target path: the trace contains a
direct write of the target, no rename at all, and no write to any other
path — an interrupted write can therefore corrupt the previously
persisted file. -/
theorem write_direct_in_place :
    ∀ path cfg,
      (∃ c, FsOp.writeFile path c ∈ writeOps path cfg) ∧
      (∀ s d, FsOp.rename s d ∉ writeOps path cfg) ∧
      (∀ q c, FsOp.writeFile q c ∈ writeOps path cfg → q = path ∧ c = serializeRepo cfg) := by
  intro path cfg
  refine ⟨⟨serializeRepo cfg, by simp [writeOps]⟩, ?_, ?_⟩
  · intro s d hm
    simp [writeOps] at hm
  · intro q c hm
    simp [writeOps] at hm
    exact hm

theorem write_direct_in_place_witness :
    ∃ c, FsOp.writeFile "build/updatePlugins.xml" c
      ∈ writeOps "build/updatePlugins.xml" (repoConfigOf [p0]) :=
  (write_direct_in_place "build/updatePlugins.xml" (repoConfigOf [p0])).1

/-- C3 counterexample: with two failing tasks the run result is identical
to the run where only the first task fails — the outcome carries a single
exception, so it cannot report the full set of failing plugins — and no
file is written. -/
theorem partial_failure_counterexample :
    mainRun "build/updatePlugins.xml"
        [.error .providerUnavailable, .error (.assetNotFound "netcdf-1.0.3.zip")]
      = mainRun "build/updatePlugins.xml" [.error .providerUnavailable, .ok p0] ∧
    (mainRun "build/updatePlugins.xml"
        [.error .providerUnavailable, .error (.assetNotFound "netcdf-1.0.3.zip")]).1 = [] :=
  ⟨rfl, rfl⟩

/-- C3 (amended): when any task fails, `main` aborts with the first
failing task's exception (the `asyncio.gather` default) and performs no
file write at all — but it does not aggregate the failures. -/
theorem main_fails_first_error_no_write :
    ∀ path outcomes e, firstError outcomes = some e →
      mainRun path outcomes = ([], some e) := by
  intro path outcomes e h
  simp [mainRun, gatherE_first_error outcomes e h]

theorem main_fails_first_error_no_write_witness :
    firstError [.error .providerUnavailable, .ok p0] = some .providerUnavailable ∧
    mainRun "build/updatePlugins.xml" [.error .providerUnavailable, .ok p0]
      = ([], some .providerUnavailable) :=
  ⟨rfl, main_fails_first_error_no_write "build/updatePlugins.xml" _ _ rfl⟩

/-- C4: with no explicit tag, release selection returns a tag of the list
whose parsed semantic version is maximal under python-semver precedence,
and a version carrying a pre-release compares strictly below the same
version without one. -/
theorem latest_release_selects_max_version :
    (∀ tags : List String, tags ≠ [] → (∀ t ∈ tags, (semverOf t).isSome = true) →
      ∃ sel, latestTag tags = .ok sel ∧ sel ∈ tags ∧
        ∀ t ∈ tags, ∀ vt vs, semverOf t = some vt → semverOf sel = some vs →
          compareVer vt vs ≠ .gt) ∧
    (∀ (m mi pa : Nat) (pre : List PreId) (b b' : List (List Char)), pre ≠ [] →
      compareVer ⟨m, mi, pa, pre, b⟩ ⟨m, mi, pa, [], b'⟩ = .lt) := by
  constructor
  · intro tags hne hall
    match tags, hne with
    | t :: ts, _ =>
      have ht : (semverOf t).isSome = true := hall t (List.mem_cons_self t ts)
      obtain ⟨vt, hvt⟩ : ∃ v, semverOf t = some v := by
        cases h : semverOf t
        · rw [h] at ht; simp at ht
        · exact ⟨_, rfl⟩
      obtain ⟨r, hr, hmem, hrv, hle, hmax⟩ :=
        pyMaxAux_spec ts (t, vt) hvt (fun u hu => hall u (List.mem_cons_of_mem _ hu))
      refine ⟨r.1, ?_, ?_, ?_⟩
      · simp [latestTag, semverE, hvt, hr, Except.map]
      · rcases hmem with h | h
        · rw [h]; exact List.mem_cons_self t ts
        · exact List.mem_cons_of_mem _ h
      · intro u hu vu vs hvu hvs
        rw [hrv] at hvs
        obtain rfl : r.2 = vs := Option.some_inj.mp hvs
        rcases List.mem_cons.mp hu with h | h
        · subst h
          rw [hvu] at hvt
          obtain rfl : vu = vt := Option.some_inj.mp hvt
          exact hle
        · exact hmax u h vu hvu
  · intro m mi pa pre b b' hpre
    have hc : ∀ n : Nat, compare n n = Ordering.eq :=
      fun n => Batteries.OrientedCmp.cmp_refl
    cases pre with
    | nil => exact absurd rfl hpre
    | cons q qs =>
      simp only [compareVer, hc]
      rfl

theorem latest_release_selects_max_version_witness :
    (∃ sel, latestTag ["v1.1.9", "v1.2.0"] = .ok sel ∧ sel ∈ ["v1.1.9", "v1.2.0"] ∧
      ∀ t ∈ ["v1.1.9", "v1.2.0"], ∀ vt vs, semverOf t = some vt → semverOf sel = some vs →
        compareVer vt vs ≠ .gt) ∧
    compareVer ⟨2, 0, 0, [.str ['b', 'e', 't', 'a']], []⟩ ⟨2, 0, 0, [], []⟩ = .lt :=
  ⟨latest_release_selects_max_version.1 ["v1.1.9", "v1.2.0"] (by decide) (by decide),
   latest_release_selects_max_version.2 2 0 0 [.str ['b', 'e', 't', 'a']] [] [] (by decide)⟩

/-- C5 counterexample: a distribution archive with two top-level entries
is not rejected — extraction proceeds with the first entry and
succeeds. -/
theorem top_level_multiple_entries_counterexample :
    jarMeta ⟨[goodTop, ⟨"second-dir", true, []⟩]⟩ = .ok metaOk ∧
    (⟨[goodTop, ⟨"second-dir", true, []⟩]⟩ : Jar).entries.length = 2 :=
  ⟨rfl, rfl⟩

/-- C5 (amended): extraction fails on an archive with no top-level entry
(`StopIteration`) or whose first entry is not a directory
(`AssertionError`); otherwise only the first top-level entry is examined —
additional top-level entries neither cause a failure nor affect the
result. -/
theorem top_level_first_entry_only :
    jarMeta ⟨[]⟩ = .error .emptyArchive ∧
    (∀ (e : TopEntry) (rest : List TopEntry), e.isDir = false →
      jarMeta ⟨e :: rest⟩ = .error .rootNotDir) ∧
    (∀ (e : TopEntry) (rest : List TopEntry), jarMeta ⟨e :: rest⟩ = jarMeta ⟨[e]⟩) := by
  refine ⟨rfl, ?_, ?_⟩
  · intro e rest h
    simp [jarMeta, h]
  · intro e rest
    simp [jarMeta]

theorem top_level_first_entry_only_witness :
    TopEntry.isDir ⟨"flat-entry", false, []⟩ = false ∧
    jarMeta ⟨[⟨"flat-entry", false, []⟩]⟩ = .error .rootNotDir :=
  ⟨rfl, top_level_first_entry_only.2.1 ⟨"flat-entry", false, []⟩ [] rfl⟩

/-- C6 counterexample: with the `idea-version` element absent, extraction
does not succeed with an empty compatibility mapping —
`root.find("idea-version").attrib` raises `AttributeError`. -/
theorem idea_version_absent_counterexample :
    metaOfRoot docNoIdeaVersion = .error (.missingElem "idea-version") := rfl

/-- C6 (amended): when the `idea-version` element is present, the record's
compatibility mapping equals its full attribute set (zero or more
attributes); when it is absent, extraction fails instead of producing an
empty mapping. -/
theorem idea_version_attrib_mapping :
    (∀ root i n v d iv, root.find "id" = some i → root.find "name" = some n →
      root.find "version" = some v → root.find "description" = some d →
      root.find "idea-version" = some iv →
      ∃ m, metaOfRoot root = .ok m ∧ m.ideaVersion = iv.attrib) ∧
    (∀ root i n v d, root.find "id" = some i → root.find "name" = some n →
      root.find "version" = some v → root.find "description" = some d →
      root.find "idea-version" = none →
      metaOfRoot root = .error (.missingElem "idea-version")) := by
  constructor
  · intro root i n v d iv h1 h2 h3 h4 h5
    exact ⟨_, metaOfRoot_ok root i n v d iv h1 h2 h3 h4 h5, rfl⟩
  · intro root i n v d h1 h2 h3 h4 h5
    simp [metaOfRoot, h1, h2, h3, h4, h5]

theorem idea_version_attrib_mapping_witness :
    ∃ m, metaOfRoot descriptorDoc = .ok m ∧ m.ideaVersion = [("since-build", "221")] :=
  idea_version_attrib_mapping.1 descriptorDoc _ _ _ _ _ rfl rfl rfl rfl rfl

/-- C7 counterexample: for a pre-release version, `build.py` builds the
lookup name from the finalized version, not the parsed version, and so
misses an asset that is named with the parsed version. -/
theorem asset_name_counterexample :
    buildAssetName "netcdf" betaVer ≠ "netcdf-2.0.0-beta.zip" ∧
    updateAssetName "netcdf" betaVer = "netcdf-2.0.0-beta.zip" ∧
    lookupAsset [("netcdf-2.0.0-beta.zip", "u")] (buildAssetName "netcdf" betaVer)
      = .error () :=
  ⟨by decide, rfl, rfl⟩

/-- C7 (amended): `bin/update.py` builds the asset name from the artifact
and the parsed version's string form, and the lookup fails (`KeyError`)
exactly when no asset bears that exact name; `build.py` instead builds the
name from the finalized version, with pre-release and build stripped. -/
theorem asset_exact_name_lookup :
    (∀ (assets : List (String × String)) nm url, lookupAsset assets nm = .ok url →
      ∃ a ∈ assets, a.1 = nm ∧ a.2 = url) ∧
    (∀ (assets : List (String × String)) nm,
      lookupAsset assets nm = .error () ↔ ∀ a ∈ assets, a.1 ≠ nm) ∧
    (∀ artifact v, buildAssetName artifact v = updateAssetName artifact (finalizeVersion v)) := by
  refine ⟨?_, ?_, fun artifact v => rfl⟩
  · intro assets nm url hok
    cases hf : assets.find? (fun a => a.1 == nm) with
    | none => simp [lookupAsset, hf] at hok
    | some a =>
      have ha : a.1 = nm := by
        have := List.find?_some hf
        simpa using this
      have hm : a ∈ assets := List.mem_of_find?_eq_some hf
      have hu : a.2 = url := by
        simp [lookupAsset, hf] at hok
        exact hok
      exact ⟨a, hm, ha, hu⟩
  · intro assets nm
    constructor
    · intro herr a hm
      cases hf : assets.find? (fun a => a.1 == nm) with
      | none =>
        have := List.find?_eq_none.mp hf a hm
        simpa using this
      | some b => simp [lookupAsset, hf] at herr
    · intro hnone
      have hf : assets.find? (fun a => a.1 == nm) = none := by
        apply List.find?_eq_none.mpr
        intro a hm
        simpa using hnone a hm
      simp [lookupAsset, hf]

theorem asset_exact_name_lookup_witness :
    (∃ a ∈ [("netcdf-1.0.2.zip", "u")], a.1 = "netcdf-1.0.2.zip" ∧ a.2 = "u") ∧
    buildAssetName "netcdf" betaVer = updateAssetName "netcdf" (finalizeVersion betaVer) :=
  ⟨asset_exact_name_lookup.1 [("netcdf-1.0.2.zip", "u")] "netcdf-1.0.2.zip" "u" rfl,
   asset_exact_name_lookup.2.2 "netcdf" betaVer⟩

/-- C8: `_semver` strips every leading `v` from the tag (Python `lstrip`),
not only one: every tag decomposes as a maximal run of leading `v`
characters followed by the stripped remainder, which never starts with
`v`; `vv1.2.3` parses to version 1.2.3 and a tag whose remainder is not a
valid semantic version fails to parse. -/
theorem semver_lstrips_all_leading_v :
    (∀ l : List Char,
      List.replicate (l.length - (lstripV l).length) 'v' ++ lstripV l = l) ∧
    (∀ l : List Char, (lstripV l).head? ≠ some 'v') ∧
    semverOf "vv1.2.3" = some ⟨1, 2, 3, [], []⟩ ∧
    semverOf "vvx" = none := by
  refine ⟨?_, ?_, rfl, rfl⟩
  · intro l
    have hsplit := List.takeWhile_append_dropWhile (p := fun c => decide (c = 'v')) (l := l)
    have htake : List.takeWhile (fun c => decide (c = 'v')) l
        = List.replicate (List.takeWhile (fun c => decide (c = 'v')) l).length 'v' := by
      apply List.eq_replicate_of_mem
      intro b hb
      exact of_decide_eq_true (List.mem_takeWhile_imp (p := fun c => decide (c = 'v')) hb)
    have hlen : (List.takeWhile (fun c => decide (c = 'v')) l).length
        = l.length - (lstripV l).length := by
      have hl := congrArg List.length hsplit
      simp only [List.length_append] at hl
      simp only [lstripV]
      omega
    calc List.replicate (l.length - (lstripV l).length) 'v' ++ lstripV l
        = List.takeWhile (fun c => decide (c = 'v')) l ++ lstripV l := by
          rw [← hlen, ← htake]
      _ = l := hsplit
  · intro l
    induction l with
    | nil => simp [lstripV]
    | cons c cs ih =>
      by_cases hc : c = 'v'
      · simpa [lstripV, List.dropWhile_cons, hc] using ih
      · simp [lstripV, List.dropWhile_cons, hc]

theorem semver_lstrips_all_leading_v_witness :
    List.replicate (("vv1.2.3".data).length - (lstripV "vv1.2.3".data).length) 'v'
        ++ lstripV "vv1.2.3".data = "vv1.2.3".data ∧
    semverOf "vv1.2.3" = some ⟨1, 2, 3, [], []⟩ :=
  ⟨semver_lstrips_all_leading_v.1 "vv1.2.3".data, semver_lstrips_all_leading_v.2.2.1⟩

/-- C9: a required descriptor element that is present but has no text
yields a `None` field and extraction succeeds; extraction fails only when
some element is fully absent from the document. -/
theorem descriptor_empty_text_fields :
    (∀ root i n v d iv, root.find "id" = some i → root.find "name" = some n →
      root.find "version" = some v → root.find "description" = some d →
      root.find "idea-version" = some iv →
      metaOfRoot root = .ok ⟨i.text, n.text, v.text, d.text, iv.attrib⟩) ∧
    (∀ root err, metaOfRoot root = .error err →
      ∃ t, err = .missingElem t ∧ root.find t = none) :=
  ⟨metaOfRoot_ok, metaOfRoot_error_absent⟩

theorem descriptor_empty_text_fields_witness :
    metaOfRoot docEmptyId
      = .ok ⟨none, some "NetCDF", some "1.0.2", some "NetCDF file viewer",
             [("since-build", "221")]⟩ :=
  descriptor_empty_text_fields.1 docEmptyId _ _ _ _ _ rfl rfl rfl rfl rfl

/-- C10: `_IndexFile.repo_url` keeps the scheme and network location and
truncates the split path to the segments strictly before the first
`releases` segment; a URL whose path has no `releases` segment fails
(`ValueError` from `list.index`) instead of returning a URL. -/
theorem repo_url_truncates_at_releases :
    (∀ u : SplitUrl, "releases" ∈ pySplit '/' u.path →
      ∃ r, repoUrl u = .ok r ∧ r.scheme = u.scheme ∧ r.netloc = u.netloc ∧
        r.query = u.query ∧ r.fragment = u.fragment ∧
        r.path = pyJoin '/' ((pySplit '/' u.path).takeWhile fun s => s != "releases")) ∧
    (∀ u : SplitUrl, "releases" ∉ pySplit '/' u.path → repoUrl u = .error ()) := by
  constructor
  · intro u hmem
    cases hidx : pyIndex "releases" (pySplit '/' u.path) with
    | none => exact absurd hmem ((pyIndex_eq_none "releases" _).mp hidx)
    | some i =>
      refine ⟨{ u with path := pyJoin '/' ((pySplit '/' u.path).take i) },
        ?_, rfl, rfl, rfl, rfl, ?_⟩
      · simp [repoUrl, hidx]
      · exact congrArg (pyJoin '/') (pyIndex_take "releases" _ i hidx)
  · intro u hmem
    have hidx : pyIndex "releases" (pySplit '/' u.path) = none :=
      (pyIndex_eq_none "releases" _).mpr hmem
    simp [repoUrl, hidx]

theorem repo_url_truncates_at_releases_witness :
    (∃ r, repoUrl ⟨"https", "github.com",
          "/mdklatt/idea-netcdf-plugin/releases/download/v1.0.2/netcdf-1.0.2.zip", "", ""⟩
        = .ok r ∧
        r.scheme = "https" ∧ r.netloc = "github.com" ∧ r.query = "" ∧ r.fragment = "" ∧
        r.path = pyJoin '/' ((pySplit '/'
          "/mdklatt/idea-netcdf-plugin/releases/download/v1.0.2/netcdf-1.0.2.zip").takeWhile
            fun s => s != "releases")) ∧
    repoUrl ⟨"https", "github.com", "/mdklatt/idea-netcdf-plugin", "", ""⟩ = .error () :=
  ⟨repo_url_truncates_at_releases.1 _ (by decide),
   repo_url_truncates_at_releases.2 _ (by decide)⟩

end PluginRepo
